import Mathlib

/-!
# Verification of the TCP chat server (tcp/chat/server/02-tcp-chat-server.go)

A shallow embedding of the chat server core.  The Go program keeps, per
connected client, a buffered channel of capacity 100 (`msgChan`), a global
`sync.Map` of clients (`newClients`) and a global `int32` counter
(`clientCounter`) updated with `atomic.AddInt32`.

Modelling conventions:
* a Go `*Client` pointer is represented by a natural-number identity `id`;
* the buffered channel is a FIFO list, head = next message to be dequeued;
* the `sync.Map` registry is a list of clients with pairwise distinct ids
  (a map cannot hold the same key twice);
* the `int32` counter is an `Int` reduced into the two-complement range
  by `wrap32` at every atomic add, matching Go signed-integer wraparound;
* `fmt.Printf` log output is modelled as lists of log lines or as trace
  events; the wall-clock timestamp inserted by `getCurrentTime` is
  abstracted away (it never influences control flow).
-/

namespace ChatServer

/-- Character class of `unicode.IsSpace`, used by `strings.TrimSpace`.
Covers the Latin-1 white space runes and the White_Space code points
above Latin-1. -/
def goIsSpace (c : Char) : Bool :=
  c == ' ' || c == '\t' || c == '\n' || c == '\x0b' || c == '\x0c' || c == '\r' ||
  c.toNat == 0x85 || c.toNat == 0xA0 || c.toNat == 0x1680 ||
  (decide (0x2000 <= c.toNat) && decide (c.toNat <= 0x200A)) ||
  c.toNat == 0x2028 || c.toNat == 0x2029 || c.toNat == 0x202F ||
  c.toNat == 0x205F || c.toNat == 0x3000

/-- `strings.TrimSpace`: remove leading and trailing white space. -/
def trimSpace (s : String) : String :=
  String.mk (((s.data.dropWhile goIsSpace).reverse.dropWhile goIsSpace).reverse)

/-- Two-complement reduction of an `Int` into the `int32` range
`[-2^31, 2^31)`.  Go `int32` arithmetic (`atomic.AddInt32` included)
wraps around this way. -/
def wrap32 (n : Int) : Int :=
  (n + 2 ^ 31) % 2 ^ 32 - 2 ^ 31

/-- One connected client (struct `Client`, lines 39-44 of the source).
`conn` and `writer` are transport handles without observable pure state;
`id` stands for the pointer identity of the Go `*Client`. -/
structure Client where
  id : Nat
  name : String
  msgChan : List String
  deriving Repr, DecidableEq

/-- Capacity of the buffered channel: `make(chan string, 100)` (line 99). -/
def chanCapacity : Nat := 100

/-- Non-blocking send on the buffered channel:
`select { case ch <- message: default: }`.  The message is appended when
the buffer has room and silently lost otherwise. -/
def trySendChan (queue : List String) (message : String) : List String :=
  if queue.length < chanCapacity then queue ++ [message] else queue

/-- `Client.sendMessage` (lines 199-208): non-blocking send with an empty
`default` branch — a full queue drops the message and produces no log
line.  Returned second component: log lines printed by the call. -/
def sendMessage (c : Client) (message : String) : Client × List String :=
  if c.msgChan.length < chanCapacity then
    ({ c with msgChan := c.msgChan ++ [message] }, [])
  else
    (c, [])

/-- The per-client body of `broadcast` (lines 178-182): non-blocking send;
on a full queue the message is dropped and
`fmt.Printf("client %s channel full, skip\n", client.name)` runs. -/
def broadcastSendOne (message : String) (c : Client) : Client × List String :=
  if c.msgChan.length < chanCapacity then
    ({ c with msgChan := c.msgChan ++ [message] }, [])
  else
    (c, ["client " ++ c.name ++ " channel full, skip\n"])

/-- `broadcast(message, exclude)` (lines 172-196): `newClients.Range`
visits every stored client once; a client equal (pointer equality) to
`exclude` is skipped, every other client gets one non-blocking enqueue
attempt.  `exclude = none` models the `nil` argument; a stored client is
never `nil`, so `nil` excludes nobody.  Result: updated registry, log
lines, and the ids that received an enqueue attempt, in visit order. -/
def broadcast (message : String) (exclude : Option Nat) :
    List Client → List Client × List String × List Nat
  | [] => ([], [], [])
  | c :: rest =>
    let r := broadcast message exclude rest
    if some c.id = exclude then
      (c :: r.1, r.2.1, r.2.2)
    else
      let s := broadcastSendOne message c
      (s.1 :: r.1, s.2 ++ r.2.1, c.id :: r.2.2)

/-- `newClients.Delete(client)` (line 129): remove the key from the map;
deleting an absent key is a no-op. -/
def registryRemove (registry : List Client) (id : Nat) : List Client :=
  registry.filter (fun c => c.id != id)

/-- State produced by the prologue of `handleClient` (lines 88-120):
counter value after the atomic increment, whether `newClients.Store` ran,
the client as constructed (welcome and count lines already enqueued by
`sendMessage`), and the two `broadcast` calls issued, each given as
(message, excluded id). -/
structure Prologue where
  counter : Int
  registered : Bool
  client : Client
  broadcasts : List (String × Option Nat)
  deriving Repr, DecidableEq

/-- Prologue of `handleClient` (lines 88-120).  `nameData` and `nameErr`
are the two results of `reader.ReadString` on the first line: the bytes
read before the newline or the failure, and whether it failed.  The
source discards the error — `name, _ := reader.ReadString(...)` — so
`nameErr` is never consulted: the counter is incremented, the client is
built from the trimmed partial data, welcome and count lines are sent,
the client is stored in `newClients`, and join plus count messages are
broadcast, on the error path exactly as on the success path. -/
def handleClientPrologue (counter : Int) (freshId : Nat)
    (nameData : String) (_nameErr : Bool) : Prologue :=
  let counter1 := wrap32 (counter + 1)
  let name := trimSpace nameData
  let c0 : Client := { id := freshId, name := name, msgChan := [] }
  let c1 := (sendMessage c0 ("欢迎来到聊天室！你的名字是：" ++ name ++ "\n")).1
  let c2 := (sendMessage c1 ("当前在线人数：" ++ toString counter1 ++ "\n")).1
  { counter := counter1
    registered := true
    client := c2
    broadcasts :=
      [("系统消息：" ++ name ++ " 加入了聊天室\n", some freshId),
       ("当前在线人数：" ++ toString counter1 ++ "\n", some freshId)] }

/-- One iteration of the read loop body after a successful `ReadString`
(lines 149-159): trim the line; an empty result is skipped (`continue`),
otherwise the line is logged and broadcast as
`fmt.Sprintf("%s: %s\n", client.name, message)` excluding the sender.
First component: `broadcast` result (registry, logs, attempted ids);
second: whether the console log of the chat line was printed. -/
def handleChatLine (senderName : String) (senderId : Nat)
    (registry : List Client) (raw : String) :
    (List Client × List String × List Nat) × Bool :=
  let message := trimSpace raw
  if message = "" then
    ((registry, [], []), false)
  else
    (broadcast (senderName ++ ": " ++ message ++ "\n") (some senderId) registry, true)

/-- The state of a `bufio.Writer`: once an operation has failed, the
error sticks and every later operation is a no-op returning it. -/
structure BufWriter where
  err : Bool
  deriving Repr, DecidableEq

/-- `c.writer.WriteString(msg)` followed by `c.writer.Flush()`:
`sockOk` tells whether the underlying socket write would succeed.  The
returned `Bool` is whether the message actually reached the socket. -/
def writeStringFlush (w : BufWriter) (sockOk : Bool) : BufWriter × Bool :=
  if w.err then (w, false)
  else if sockOk then (w, true)
  else ({ err := true }, false)

/-- `Client.writePump` (lines 163-169): `for msg := range c.msgChan`
dequeues until the channel is closed; the results of `WriteString` and
`Flush` are discarded, so a failed write does not stop the loop.
`queue` holds the messages dequeued before the channel closes, `oks` the
socket behaviour per iteration.  Result: each dequeued message paired
with whether it was delivered.  `conn.Close()` (the deferred call) runs
exactly when this function returns, i.e. after the whole queue. -/
def writePump (w : BufWriter) : List String → List Bool → List (String × Bool)
  | [], _ => []
  | m :: rest, oks =>
    let s := writeStringFlush w (oks.headD true)
    (m, s.2) :: writePump s.1 rest oks.tail

/-- Messages that reached the socket, in delivery order. -/
def deliveredOf (l : List (String × Bool)) : List String :=
  l.filterMap (fun p => if p.2 then some p.1 else none)

/-- A sequence of non-blocking enqueues of `msgs` into one queue, in
order — e.g. the same recipient visited by successive `broadcast`
calls. -/
def enqueueAll (queue : List String) (msgs : List String) : List String :=
  msgs.foldl trySendChan queue

/-- The subsequence of `msgs` that a queue currently holding `len`
messages accepts: each message is kept when the queue has room at its
turn and lost otherwise. -/
def keptMessages (len : Nat) : List String → List String
  | [] => []
  | m :: rest =>
    if len < chanCapacity then m :: keptMessages (len + 1) rest
    else keptMessages len rest

/-- One atomic update of the global `clientCounter`:
`atomic.AddInt32(&clientCounter, 1)` at the top of `handleClient`
(registration) or `atomic.AddInt32(&clientCounter, -1)` in its deferred
teardown (deregistration). -/
inductive CounterOp where
  | inc
  | dec
  deriving Repr, DecidableEq

/-- Effect of one atomic add on the `int32` counter. -/
def applyOp (n : Int) : CounterOp → Int
  | .inc => wrap32 (n + 1)
  | .dec => wrap32 (n - 1)

/-- Counter value after a sequence of atomic adds, starting from `n`. -/
def runOps (n : Int) (ops : List CounterOp) : Int :=
  ops.foldl applyOp n

/-- Number of increments in a counter trace. -/
def incCount : List CounterOp → Nat
  | [] => 0
  | .inc :: l => incCount l + 1
  | .dec :: l => incCount l

/-- Number of decrements in a counter trace. -/
def decCount : List CounterOp → Nat
  | [] => 0
  | .inc :: l => decCount l
  | .dec :: l => decCount l + 1

/-- Observable action of the post-registration part of `handleClient`,
one constructor per call site in the source:
* `chatLog name message` — `fmt.Printf("[%s] %s: %s\n", ...)`, line 156;
* `chatBcast name message excludeId` —
  `broadcast(fmt.Sprintf("%s: %s\n", ...), client)`, line 159;
* `counterAdd d` — `atomic.AddInt32(&clientCounter, d)`, line 128;
* `registryDelete id` — `newClients.Delete(client)`, line 129;
* `chanClose id` — `close(client.msgChan)`, line 130;
* `leaveLog name` — `fmt.Printf("[%s] %s 离开聊天室\n", ...)`, line 131;
* `leaveBcast name` —
  `broadcast(fmt.Sprintf("系统消息：%s 离开了聊天室\n", ...), nil)`, line 134;
* `countBcast n` —
  `broadcast(fmt.Sprintf("当前在线人数：%d\n", clientCounter), nil)`, line 135. -/
inductive Ev where
  | chatLog (name message : String)
  | chatBcast (name message : String) (excludeId : Nat)
  | counterAdd (delta : Int)
  | registryDelete (id : Nat)
  | chanClose (id : Nat)
  | leaveLog (name : String)
  | leaveBcast (name : String)
  | countBcast (count : Int)
  deriving Repr, DecidableEq

/-- Events of one iteration of the read loop on a successfully read line
(lines 149-159): a line that trims to empty is skipped with no action at
all; otherwise the chat line is logged and broadcast excluding the
sender. -/
def lineEvents (name : String) (id : Nat) (raw : String) : List Ev :=
  let message := trimSpace raw
  if message = "" then []
  else [.chatLog name message, .chatBcast name message id]

/-- Events of the deferred teardown of `handleClient` (lines 123-137),
in program order: decrement the counter, delete the client from
`newClients`, close its channel, log the departure, broadcast the leave
notice and the updated count with `nil` exclusion.  `counter` is the
counter value when the teardown starts. -/
def teardownEvents (name : String) (id : Nat) (counter : Int) : List Ev :=
  [.counterAdd (-1), .registryDelete id, .chanClose id, .leaveLog name,
   .leaveBcast name, .countBcast (wrap32 (counter - 1))]

/-- The post-registration read loop of `handleClient` (lines 139-160)
together with its deferred teardown: `lines` are the lines successfully
read before `ReadString` fails (a peer close surfaces as a read error
too); the failing read makes the loop `return`, which runs the deferred
teardown exactly once. -/
def readerLoop (name : String) (id : Nat) (counter : Int) : List String → List Ev
  | [] => teardownEvents name id counter
  | raw :: rest => lineEvents name id raw ++ readerLoop name id counter rest

/-- Occurrences of one event in a trace. -/
def countEv (e : Ev) : List Ev → Nat
  | [] => 0
  | x :: l => (if x = e then 1 else 0) + countEv e l

/-- A client whose outbound queue is exactly at capacity. -/
def fullClient : Client :=
  { id := 7, name := "alice", msgChan := List.replicate chanCapacity "m" }

/-- The counter trace of 2^31 registrations with no deregistration. -/
def overflowOps : List CounterOp :=
  List.replicate (2 ^ 31) CounterOp.inc

/-- `broadcast` leaves the registry pointwise: the excluded client is
untouched, every other client goes through one `broadcastSendOne`. -/
theorem broadcast_fst_eq_map (message : String) (exclude : Option Nat)
    (registry : List Client) :
    (broadcast message exclude registry).1 =
      registry.map (fun c =>
        if some c.id = exclude then c else (broadcastSendOne message c).1) := by
  induction registry with
  | nil => rfl
  | cons c rest ih =>
    by_cases h : some c.id = exclude <;> simp [broadcast, h, ih]

/-- Every attempted id in a `broadcast` call belongs to the registry. -/
theorem broadcast_attempts_subset (message : String) (exclude : Option Nat)
    (registry : List Client) :
    ∀ x ∈ (broadcast message exclude registry).2.2, x ∈ registry.map Client.id := by
  induction registry with
  | nil => simp [broadcast]
  | cons c rest ih =>
    intro x hx
    by_cases h : some c.id = exclude
    · simp [broadcast, h] at hx
      simpa using Or.inr (ih x hx)
    · simp [broadcast, h] at hx
      rcases hx with rfl | hx
      · simp
      · simpa using Or.inr (ih x hx)

/-- The excluded id never receives an enqueue attempt. -/
theorem broadcast_excluded_not_attempted (message : String) (x : Nat)
    (registry : List Client) :
    x ∉ (broadcast message (some x) registry).2.2 := by
  induction registry with
  | nil => simp [broadcast]
  | cons c rest ih =>
    by_cases h : some c.id = some x
    · simp [broadcast, h]
      exact ih
    · simp [broadcast, h]
      refine ⟨fun hxc => h ?_, ih⟩
      rw [hxc]

/-- Attempt counts of one `broadcast` call over a registry with
pairwise-distinct ids (a map cannot store one key twice): one attempt
per non-excluded client, none for the excluded one. -/
theorem broadcast_attempt_count (message : String) (exclude : Option Nat)
    (registry : List Client) (hnd : (registry.map Client.id).Nodup) :
    (∀ c ∈ registry, some c.id ≠ exclude →
      (broadcast message exclude registry).2.2.count c.id = 1) ∧
    (∀ c ∈ registry, some c.id = exclude →
      (broadcast message exclude registry).2.2.count c.id = 0) := by
  induction registry with
  | nil => simp
  | cons c rest ih =>
    rw [List.map_cons, List.nodup_cons] at hnd
    obtain ⟨hc, hrest⟩ := hnd
    obtain ⟨ih1, ih2⟩ := ih hrest
    have hnotatt : c.id ∉ (broadcast message exclude rest).2.2 :=
      fun hmem => hc (broadcast_attempts_subset message exclude rest c.id hmem)
    constructor
    · intro d hd hde
      rcases List.mem_cons.mp hd with rfl | hd
      · by_cases h : some d.id = exclude
        · exact absurd h hde
        · simp [broadcast, h, List.count_cons]
          exact List.count_eq_zero.mpr hnotatt
      · have hne : d.id ≠ c.id := by
          intro he
          exact hc (he ▸ List.mem_map_of_mem Client.id hd)
        by_cases h : some c.id = exclude
        · simp [broadcast, h]
          exact ih1 d hd hde
        · simp [broadcast, h, List.count_cons, hne]
          exact ih1 d hd hde
    · intro d hd hde
      rcases List.mem_cons.mp hd with rfl | hd
      · simp [broadcast, hde]
        exact List.count_eq_zero.mpr hnotatt
      · have hne : d.id ≠ c.id := by
          intro he
          exact hc (he ▸ List.mem_map_of_mem Client.id hd)
        by_cases h : some c.id = exclude
        · simp [broadcast, h]
          exact ih2 d hd hde
        · simp [broadcast, h, List.count_cons, hne]
          exact ih2 d hd hde

/-- C5: on any registry (pairwise-distinct ids, as in a map) and any
`broadcast(message, exclude)` call, every registered client other than
the excluded one receives exactly one enqueue attempt, the excluded
client receives none, and with the `nil` exclusion every registered
client receives exactly one attempt. -/
theorem broadcast_attempts_exactly_once (message : String) (exclude : Option Nat)
    (registry : List Client) (hnd : (registry.map Client.id).Nodup) :
    (∀ c ∈ registry, some c.id ≠ exclude →
      (broadcast message exclude registry).2.2.count c.id = 1) ∧
    (∀ c ∈ registry, some c.id = exclude →
      (broadcast message exclude registry).2.2.count c.id = 0) ∧
    (exclude = none → ∀ c ∈ registry,
      (broadcast message exclude registry).2.2.count c.id = 1) := by
  obtain ⟨h1, h2⟩ := broadcast_attempt_count message exclude registry hnd
  exact ⟨h1, h2, fun he c hcmem => h1 c hcmem (by simp [he])⟩

/-- C5 witness: two registered clients, excluding id 0 attempts exactly
id 1; with `nil` exclusion id 0 is attempted once as well. -/
theorem broadcast_attempts_exactly_once_witness :
    ((broadcast "m" (some 0) [Client.mk 0 "a" [], Client.mk 1 "b" []]).2.2).count 1 = 1 ∧
    ((broadcast "m" (some 0) [Client.mk 0 "a" [], Client.mk 1 "b" []]).2.2).count 0 = 0 ∧
    ((broadcast "m" none [Client.mk 0 "a" [], Client.mk 1 "b" []]).2.2).count 0 = 1 :=
  ⟨(broadcast_attempts_exactly_once "m" (some 0)
      [Client.mk 0 "a" [], Client.mk 1 "b" []] (by decide)).1
      (Client.mk 1 "b" []) (by decide) (by decide),
   (broadcast_attempts_exactly_once "m" (some 0)
      [Client.mk 0 "a" [], Client.mk 1 "b" []] (by decide)).2.1
      (Client.mk 0 "a" []) (by decide) (by decide),
   (broadcast_attempts_exactly_once "m" none
      [Client.mk 0 "a" [], Client.mk 1 "b" []] (by decide)).2.2 rfl
      (Client.mk 0 "a" []) (by decide)⟩

/-- C6: a registered client's line whose trim is non-empty is broadcast
to the registry as the sender's display name, a colon and a space, the
trimmed message and a newline; every other client below capacity gets
that exact string appended to its queue, every other client gets
exactly one enqueue attempt, and the sender itself gets none. -/
theorem chat_line_broadcast (senderName : String) (senderId : Nat)
    (registry : List Client) (raw : String)
    (hne : trimSpace raw ≠ "") (hnd : (registry.map Client.id).Nodup) :
    (handleChatLine senderName senderId registry raw).1.1 =
      registry.map (fun c =>
        if c.id = senderId then c
        else if c.msgChan.length < chanCapacity then
          { c with msgChan :=
              c.msgChan ++ [senderName ++ ": " ++ trimSpace raw ++ "\n"] }
        else c) ∧
    (∀ c ∈ registry, c.id ≠ senderId →
      (handleChatLine senderName senderId registry raw).1.2.2.count c.id = 1) ∧
    (handleChatLine senderName senderId registry raw).1.2.2.count senderId = 0 := by
  have hunfold : handleChatLine senderName senderId registry raw =
      (broadcast (senderName ++ ": " ++ trimSpace raw ++ "\n") (some senderId) registry,
       true) := by
    simp [handleChatLine, hne]
  rw [hunfold]
  refine ⟨?_, ?_, ?_⟩
  · rw [broadcast_fst_eq_map]
    apply List.map_congr_left
    intro c _
    by_cases h : c.id = senderId
    · simp [h]
    · simp [h, broadcastSendOne, apply_ite Prod.fst]
  · intro c hcmem hcne
    exact (broadcast_attempt_count _ (some senderId) registry hnd).1 c hcmem
      (by simpa using hcne)
  · exact List.count_eq_zero.mpr
      (broadcast_excluded_not_attempted _ senderId registry)

/-- C6 witness: alice sends a line; bob receives `alice: hi` with a
newline, alice receives nothing. -/
theorem chat_line_broadcast_witness :
    (handleChatLine "alice" 0 [Client.mk 0 "alice" [], Client.mk 1 "bob" []] "hi\n").1.1 =
      [Client.mk 0 "alice" [], Client.mk 1 "bob" ["alice: hi\n"]] ∧
    (handleChatLine "alice" 0
      [Client.mk 0 "alice" [], Client.mk 1 "bob" []] "hi\n").1.2.2.count 1 = 1 ∧
    (handleChatLine "alice" 0
      [Client.mk 0 "alice" [], Client.mk 1 "bob" []] "hi\n").1.2.2.count 0 = 0 := by
  have h := chat_line_broadcast "alice" 0
    [Client.mk 0 "alice" [], Client.mk 1 "bob" []] "hi\n" (by decide) (by decide)
  refine ⟨?_, h.2.1 (Client.mk 1 "bob" []) (by decide) (by decide), h.2.2⟩
  rw [h.1]
  decide

/-- C9: registry removal is idempotent — removing an id held by no
registered client leaves the registry unchanged (and is not an error,
`registryRemove` being total), and removing the same id twice gives the
same registry as removing it once. -/
theorem registry_remove_idempotent (registry : List Client) (id : Nat) :
    ((∀ c ∈ registry, c.id ≠ id) → registryRemove registry id = registry) ∧
    registryRemove (registryRemove registry id) id = registryRemove registry id := by
  constructor
  · intro h
    apply List.filter_eq_self.mpr
    intro c hc
    simpa using h c hc
  · simp [registryRemove, List.filter_filter]

/-- C9 witness: removing id 2 from a registry holding only id 1. -/
theorem registry_remove_idempotent_witness :
    registryRemove [Client.mk 1 "alice" []] 2 = [Client.mk 1 "alice" []] ∧
    registryRemove (registryRemove [Client.mk 1 "alice" []] 2) 2 =
      registryRemove [Client.mk 1 "alice" []] 2 :=
  ⟨(registry_remove_idempotent [Client.mk 1 "alice" []] 2).1 (by decide),
   (registry_remove_idempotent [Client.mk 1 "alice" []] 2).2⟩

/-- C2 counterexample: on the direct send path (`Client.sendMessage`,
used for the welcome and count messages) a client at capacity drops the
message but the call produces no log line at all — in particular none
containing the display name — while the broadcast path does log.  This
refutes the claim that the drop is logged on both paths. -/
theorem sendMessage_full_drop_unlogged :
    (sendMessage fullClient "hello").1 = fullClient ∧
    (sendMessage fullClient "hello").2 = [] ∧
    (broadcastSendOne "hello" fullClient).2 =
      ["client alice channel full, skip\n"] := by
  refine ⟨?_, ?_, ?_⟩ <;>
    simp [sendMessage, broadcastSendOne, fullClient, chanCapacity]

/-- C2 (amended): for a queue below capacity 100 both paths append the
message; for a queue at capacity both paths drop it without blocking,
the broadcast path logging the drop with the display name and the
direct send path dropping silently with no log. -/
theorem enqueue_capacity_behavior (c : Client) (message : String) :
    (c.msgChan.length < chanCapacity →
      broadcastSendOne message c =
        ({ c with msgChan := c.msgChan ++ [message] }, []) ∧
      sendMessage c message =
        ({ c with msgChan := c.msgChan ++ [message] }, [])) ∧
    (chanCapacity ≤ c.msgChan.length →
      broadcastSendOne message c =
        (c, ["client " ++ c.name ++ " channel full, skip\n"]) ∧
      sendMessage c message = (c, [])) := by
  constructor
  · intro h
    simp [broadcastSendOne, sendMessage, h]
  · intro h
    simp [broadcastSendOne, sendMessage, Nat.not_lt.mpr h]

/-- C2 witness: a full client drops on both paths (logged only on the
broadcast path), an empty client enqueues on both paths. -/
theorem enqueue_capacity_behavior_witness :
    (broadcastSendOne "x" fullClient =
      (fullClient, ["client alice channel full, skip\n"]) ∧
     sendMessage fullClient "x" = (fullClient, [])) ∧
    (broadcastSendOne "x" (Client.mk 1 "bob" []) =
      (Client.mk 1 "bob" ["x"], []) ∧
     sendMessage (Client.mk 1 "bob" []) "x" = (Client.mk 1 "bob" ["x"], [])) :=
  ⟨(enqueue_capacity_behavior fullClient "x").2 (by decide),
   by simpa using (enqueue_capacity_behavior (Client.mk 1 "bob" []) "x").1 (by decide)⟩

/-- C3 counterexample: starting from an error-free writer, the socket
write of the first dequeued message fails, yet `writePump` still
processes the second queued message (the loop only ends when the
channel closes, since the results of `WriteString` and `Flush` are
discarded) — refuting the claim that a failed write terminates the
Writer before further queued messages. -/
theorem writePump_continues_after_failed_write :
    writePump ⟨false⟩ ["a", "b"] [false, true] =
      [("a", false), ("b", false)] := by
  decide

/-- C3 (amended): the Writer dequeues every queued message in order no
matter how the socket behaves — write errors are ignored and do not
stop the loop — and once the buffered writer has latched an error no
later message is delivered; the connection is closed only when the
channel closes (when `writePump` returns), not upon a failed write. -/
theorem writePump_drains_whole_queue (w : BufWriter) (queue : List String)
    (oks : List Bool) :
    (writePump w queue oks).map Prod.fst = queue ∧
    (∀ p, p ∈ writePump ⟨true⟩ queue oks → p.2 = false) := by
  constructor
  · induction queue generalizing w oks with
    | nil => rfl
    | cons m rest ih => simp [writePump, ih]
  · induction queue generalizing oks with
    | nil =>
      intro p hp
      simp [writePump] at hp
    | cons m rest ih =>
      intro p hp
      simp [writePump, writeStringFlush] at hp
      rcases hp with h | h
      · simp [h]
      · exact ih _ _ h

/-- C3 witness: a one-message queue is fully drained even when its
write fails, and an errored writer delivers nothing. -/
theorem writePump_drains_whole_queue_witness :
    (writePump ⟨false⟩ ["a"] [false]).map Prod.fst = ["a"] ∧
    ("a", false).2 = false :=
  ⟨(writePump_drains_whole_queue ⟨false⟩ ["a"] [false]).1,
   (writePump_drains_whole_queue ⟨false⟩ ["a"] [false]).2 ("a", false) (by decide)⟩

/-- C1 counterexample: with a failed name read (empty partial data, the
error flag set) the handler still increments the counter, still
registers the client, still enqueues the welcome and count messages and
still issues both join broadcasts — because the source discards the
error of the first `ReadString`.  This refutes the claim that a
name-read failure aborts the connection before registration. -/
theorem name_read_error_still_registers :
    (handleClientPrologue 0 0 "" true).registered = true ∧
    (handleClientPrologue 0 0 "" true).counter = 1 ∧
    (handleClientPrologue 0 0 "" true).client.msgChan =
      ["欢迎来到聊天室！你的名字是：\n", "当前在线人数：1\n"] ∧
    (handleClientPrologue 0 0 "" true).broadcasts =
      [("系统消息： 加入了聊天室\n", some 0), ("当前在线人数：1\n", some 0)] := by
  refine ⟨rfl, by decide, by decide, by decide⟩

/-- C1 (amended): the result of the name read error flag is discarded,
so the prologue behaves on a failed name read exactly as on a
successful one — counter incremented, client registered, welcome and
count sent, join and count broadcast — with the trimmed partial data as
the display name. -/
theorem prologue_independent_of_name_read_error
    (counter : Int) (freshId : Nat) (data : String) (e : Bool) :
    handleClientPrologue counter freshId data e =
      handleClientPrologue counter freshId data false ∧
    (handleClientPrologue counter freshId data e).registered = true :=
  ⟨rfl, rfl⟩

/-- Non-blocking enqueues append in order: the queue after `enqueueAll`
is the old queue followed by the accepted subsequence of `msgs`. -/
theorem enqueueAll_eq_append_kept (msgs : List String) :
    ∀ q : List String, enqueueAll q msgs = q ++ keptMessages q.length msgs := by
  induction msgs with
  | nil =>
    intro q
    simp [enqueueAll, keptMessages]
  | cons m rest ih =>
    intro q
    by_cases h : q.length < chanCapacity
    · have h1 : enqueueAll q (m :: rest) = enqueueAll (q ++ [m]) rest := by
        simp [enqueueAll, trySendChan, h]
      rw [h1, ih (q ++ [m])]
      simp [keptMessages, h]
    · have h1 : enqueueAll q (m :: rest) = enqueueAll q rest := by
        simp [enqueueAll, trySendChan, h]
      rw [h1, ih q]
      simp [keptMessages, h]

/-- The accepted messages form an order-preserving subsequence. -/
theorem keptMessages_sublist (msgs : List String) :
    ∀ len, (keptMessages len msgs).Sublist msgs := by
  induction msgs with
  | nil =>
    intro len
    simp [keptMessages]
  | cons m rest ih =>
    intro len
    by_cases h : len < chanCapacity
    · simpa [keptMessages, h] using (ih (len + 1)).cons₂ m
    · simpa [keptMessages, h] using (ih len).cons m

/-- The Writer dequeues the queue contents in queue order. -/
theorem writePump_fst_eq_queue (w : BufWriter) (queue : List String)
    (oks : List Bool) :
    (writePump w queue oks).map Prod.fst = queue := by
  induction queue generalizing w oks with
  | nil => rfl
  | cons m rest ih => simp [writePump, ih]

/-- Selecting the delivered entries of a write log is an
order-preserving subsequence of the messages in the log. -/
theorem deliveredOf_sublist_fst (l : List (String × Bool)) :
    (deliveredOf l).Sublist (l.map Prod.fst) := by
  induction l with
  | nil => simp [deliveredOf]
  | cons p rest ih =>
    cases hp : p.2
    · simpa [deliveredOf, List.filterMap_cons, hp] using ih.cons p.1
    · simpa [deliveredOf, List.filterMap_cons, hp] using ih.cons₂ p.1

/-- The delivered messages are an order-preserving subsequence of what
the Writer dequeued. -/
theorem deliveredOf_writePump_sublist (w : BufWriter) (queue : List String)
    (oks : List Bool) :
    (deliveredOf (writePump w queue oks)).Sublist queue := by
  have h := deliveredOf_sublist_fst (writePump w queue oks)
  rwa [writePump_fst_eq_queue] at h

/-- C8: messages enqueued to one recipient's queue in order `m1, m2,
m3, ...` keep that relative order throughout — the queue holds the old
contents followed by the accepted subsequence of the new messages, the
Writer dequeues and writes the queue in exactly that order, and the
delivered subset is an order-preserving subsequence of the queue
(FIFO per queue, drops never reorder). -/
theorem fifo_per_queue (q msgs : List String) (w : BufWriter) (oks : List Bool) :
    enqueueAll q msgs = q ++ keptMessages q.length msgs ∧
    (keptMessages q.length msgs).Sublist msgs ∧
    (writePump w (enqueueAll q msgs) oks).map Prod.fst = enqueueAll q msgs ∧
    (deliveredOf (writePump w (enqueueAll q msgs) oks)).Sublist (enqueueAll q msgs) :=
  ⟨enqueueAll_eq_append_kept msgs q, keptMessages_sublist msgs q.length,
   writePump_fst_eq_queue w (enqueueAll q msgs) oks,
   deliveredOf_writePump_sublist w (enqueueAll q msgs) oks⟩

/-- Event counts distribute over trace concatenation. -/
theorem countEv_append (e : Ev) (l1 l2 : List Ev) :
    countEv e (l1 ++ l2) = countEv e l1 + countEv e l2 := by
  induction l1 with
  | nil => simp [countEv]
  | cons x l ih => simp [countEv, ih, Nat.add_assoc]

/-- A successfully read chat line never produces a teardown event. -/
theorem lineEvents_no_teardown (name : String) (id : Nat) (raw : String) :
    countEv (Ev.counterAdd (-1)) (lineEvents name id raw) = 0 ∧
    (∀ i, countEv (Ev.registryDelete i) (lineEvents name id raw) = 0) ∧
    (∀ s, countEv (Ev.leaveBcast s) (lineEvents name id raw) = 0) ∧
    (∀ k, countEv (Ev.countBcast k) (lineEvents name id raw) = 0) := by
  by_cases h : trimSpace raw = "" <;>
    simp [lineEvents, h, countEv]

/-- C7: whatever chat lines a registered client sent, once its read
fails (peer close included) the deferred teardown runs exactly once —
one counter decrement, one registry deletion, one departure
announcement broadcast and one updated-count broadcast appear in the
whole trace of the connection. -/
theorem departure_teardown_exactly_once (name : String) (id : Nat)
    (counter : Int) (lines : List String) :
    countEv (Ev.counterAdd (-1)) (readerLoop name id counter lines) = 1 ∧
    countEv (Ev.registryDelete id) (readerLoop name id counter lines) = 1 ∧
    countEv (Ev.leaveBcast name) (readerLoop name id counter lines) = 1 ∧
    countEv (Ev.countBcast (wrap32 (counter - 1)))
      (readerLoop name id counter lines) = 1 := by
  induction lines with
  | nil =>
    refine ⟨?_, ?_, ?_, ?_⟩ <;> simp [readerLoop, teardownEvents, countEv]
  | cons raw rest ih =>
    obtain ⟨z1, z2, z3, z4⟩ := lineEvents_no_teardown name id raw
    refine ⟨?_, ?_, ?_, ?_⟩ <;>
      simp [readerLoop, countEv_append, z1, z2, z3, z4, ih.1, ih.2.1,
        ih.2.2.1, ih.2.2.2]

/-- C10: a line that trims to the empty string is skipped silently —
the iteration produces no event at all (no console log, no broadcast,
no counter or registry action) and the reader loop continues exactly as
if the line had not been read. -/
theorem blank_line_skipped (name : String) (id : Nat) (raw : String)
    (h : trimSpace raw = "") :
    lineEvents name id raw = [] ∧
    (∀ counter : Int, ∀ rest : List String,
      readerLoop name id counter (raw :: rest) = readerLoop name id counter rest) := by
  have h1 : lineEvents name id raw = [] := by simp [lineEvents, h]
  exact ⟨h1, fun counter rest => by simp [readerLoop, h1]⟩

/-- C10 witness: a whitespace-only line among real chat lines. -/
theorem blank_line_skipped_witness :
    lineEvents "alice" 0 "  \n" = [] ∧
    readerLoop "alice" 0 3 ["  \n", "hi\n"] = readerLoop "alice" 0 3 ["hi\n"] :=
  ⟨(blank_line_skipped "alice" 0 "  \n" (by decide)).1,
   (blank_line_skipped "alice" 0 "  \n" (by decide)).2 3 ["hi\n"]⟩

/-- `wrap32` is the identity on the `int32` range. -/
theorem wrap32_eq_self {m : Int} (h1 : -(2 ^ 31) ≤ m) (h2 : m < 2 ^ 31) :
    wrap32 m = m := by
  unfold wrap32
  have h3 : (0 : Int) ≤ m + 2 ^ 31 := by linarith
  have h4 : m + 2 ^ 31 < 2 ^ 32 := by norm_num; linarith
  rw [Int.emod_eq_of_lt h3 h4]
  ring

/-- `wrap32` lands in the `int32` range. -/
theorem wrap32_mem_range (a : Int) :
    -(2 ^ 31) ≤ wrap32 a ∧ wrap32 a < 2 ^ 31 := by
  unfold wrap32
  constructor
  · have h := Int.emod_nonneg (a + 2 ^ 31) (by norm_num : (2 ^ 32 : Int) ≠ 0)
    linarith
  · have h := Int.emod_lt_of_pos (a + 2 ^ 31) (by norm_num : (0 : Int) < 2 ^ 32)
    norm_num at h ⊢
    linarith

/-- Wrapping an already wrapped summand does not change the result. -/
theorem wrap32_add_left (a b : Int) : wrap32 (wrap32 a + b) = wrap32 (a + b) := by
  unfold wrap32
  have h1 : (a + 2 ^ 31) % 2 ^ 32 - 2 ^ 31 + b + 2 ^ 31 =
      (a + 2 ^ 31) % 2 ^ 32 + b := by ring
  rw [h1, Int.emod_add_emod]
  have h2 : a + 2 ^ 31 + b = a + b + 2 ^ 31 := by ring
  rw [h2]

/-- Value of the counter after `n` consecutive atomic increments. -/
theorem runOps_replicate_inc :
    ∀ (n : Nat) (s : Int), -(2 ^ 31) ≤ s → s < 2 ^ 31 →
      runOps s (List.replicate n CounterOp.inc) = wrap32 (s + n) := by
  intro n
  induction n with
  | zero =>
    intro s h1 h2
    simpa [runOps] using (wrap32_eq_self h1 h2).symm
  | succ k ih =>
    intro s h1 h2
    have hstep : runOps s (List.replicate (k + 1) CounterOp.inc) =
        runOps (wrap32 (s + 1)) (List.replicate k CounterOp.inc) := rfl
    obtain ⟨l1, l2⟩ := wrap32_mem_range (s + 1)
    rw [hstep, ih (wrap32 (s + 1)) l1 l2, wrap32_add_left]
    congr 1
    push_cast
    ring

/-- Increment count of a pure-increment trace. -/
theorem incCount_replicate (n : Nat) :
    incCount (List.replicate n CounterOp.inc) = n := by
  induction n with
  | zero => rfl
  | succ k ih => simp [List.replicate_succ, incCount, ih]

/-- Decrement count of a pure-increment trace. -/
theorem decCount_replicate (n : Nat) :
    decCount (List.replicate n CounterOp.inc) = 0 := by
  induction n with
  | zero => rfl
  | succ k ih => simp [List.replicate_succ, decCount, ih]

/-- C4 counterexample: the trace of 2^31 completed registrations and no
deregistration — one in which, vacuously, every decrement is preceded
by its matching increment — wraps the `int32` counter: the final count
is -2^31, which is negative and differs from K - J = 2^31.  The claim
as stated quantifies over every such sequence, so it fails on this
one. -/
theorem counter_overflow_counterexample :
    (∀ n : Nat, decCount (overflowOps.take n) ≤ incCount (overflowOps.take n)) ∧
    runOps 0 overflowOps = -(2 ^ 31) ∧
    runOps 0 overflowOps < 0 ∧
    runOps 0 overflowOps ≠
      (incCount overflowOps : Int) - (decCount overflowOps : Int) := by
  have hrun : runOps 0 overflowOps = -(2 ^ 31) := by
    unfold overflowOps
    rw [runOps_replicate_inc (2 ^ 31) 0 (by norm_num) (by norm_num)]
    unfold wrap32
    norm_num
  refine ⟨?_, hrun, by rw [hrun]; norm_num, ?_⟩
  · intro n
    unfold overflowOps
    rw [List.take_replicate, decCount_replicate]
    exact Nat.zero_le _
  · rw [hrun]
    unfold overflowOps
    rw [incCount_replicate, decCount_replicate]
    push_cast

/-- Counter evolution without overflow: as long as the running value
`s + increments - decrements` of every prefix stays inside `[0, 2^31)`,
no atomic add wraps and the counter tracks the signed count exactly. -/
theorem runOps_tracks_counts :
    ∀ (ops : List CounterOp) (s : Int),
      (∀ n, n ≤ ops.length →
        0 ≤ s + incCount (ops.take n) - decCount (ops.take n) ∧
        s + incCount (ops.take n) - decCount (ops.take n) < 2 ^ 31) →
      ∀ n, n ≤ ops.length →
        runOps s (ops.take n) = s + incCount (ops.take n) - decCount (ops.take n) := by
  intro ops
  induction ops with
  | nil =>
    intro s _ n _
    simp [runOps, incCount, decCount]
  | cons op rest ih =>
    intro s h n hn
    cases n with
    | zero => simp [runOps, incCount, decCount]
    | succ k =>
      have hk : k ≤ rest.length := by simpa using hn
      have h1 := h 1 (by simp)
      cases op with
      | inc =>
        have hone : incCount ((CounterOp.inc :: rest).take 1) = 1 ∧
            decCount ((CounterOp.inc :: rest).take 1) = 0 := by
          simp [incCount, decCount]
        rw [hone.1, hone.2] at h1
        have hgood : wrap32 (s + 1) = s + 1 :=
          wrap32_eq_self (by push_cast at h1; linarith [h1.1]) (by push_cast at h1; linarith [h1.2])
        have hrest : ∀ m, m ≤ rest.length →
            0 ≤ (s + 1) + incCount (rest.take m) - decCount (rest.take m) ∧
            (s + 1) + incCount (rest.take m) - decCount (rest.take m) < 2 ^ 31 := by
          intro m hm
          have := h (m + 1) (by simpa using hm)
          push_cast [incCount, decCount] at this ⊢
          constructor <;> linarith [this.1, this.2]
        have hstep : runOps s ((CounterOp.inc :: rest).take (k + 1)) =
            runOps (wrap32 (s + 1)) (rest.take k) := rfl
        rw [hstep, hgood, ih (s + 1) hrest k hk]
        simp [incCount, decCount]
        ring
      | dec =>
        have hone : incCount ((CounterOp.dec :: rest).take 1) = 0 ∧
            decCount ((CounterOp.dec :: rest).take 1) = 1 := by
          simp [incCount, decCount]
        rw [hone.1, hone.2] at h1
        have hgood : wrap32 (s - 1) = s - 1 :=
          wrap32_eq_self (by push_cast at h1; linarith [h1.1]) (by push_cast at h1; linarith [h1.2])
        have hrest : ∀ m, m ≤ rest.length →
            0 ≤ (s - 1) + incCount (rest.take m) - decCount (rest.take m) ∧
            (s - 1) + incCount (rest.take m) - decCount (rest.take m) < 2 ^ 31 := by
          intro m hm
          have := h (m + 1) (by simpa using hm)
          push_cast [incCount, decCount] at this ⊢
          constructor <;> linarith [this.1, this.2]
        have hstep : runOps s ((CounterOp.dec :: rest).take (k + 1)) =
            runOps (wrap32 (s - 1)) (rest.take k) := rfl
        rw [hstep, hgood, ih (s - 1) hrest k hk]
        push_cast [incCount, decCount]
        ring

/-- C4 (amended): for every interleaving of K completed registrations
and J completed deregistrations in which every decrement is preceded by
its matching increment (every prefix has at least as many increments as
decrements) and fewer than 2^31 registrations are ever simultaneously
outstanding (so the `int32` counter cannot overflow), the final online
count equals K - J and the count is nonnegative at every point. -/
theorem counter_k_minus_j (ops : List CounterOp)
    (hpre : ∀ n, n ≤ ops.length →
      decCount (ops.take n) ≤ incCount (ops.take n))
    (hbound : ∀ n, n ≤ ops.length →
      incCount (ops.take n) < decCount (ops.take n) + 2 ^ 31) :
    runOps 0 ops = (incCount ops : Int) - (decCount ops : Int) ∧
    ∀ n, 0 ≤ runOps 0 (ops.take n) := by
  have hinv : ∀ n, n ≤ ops.length →
      0 ≤ (0 : Int) + incCount (ops.take n) - decCount (ops.take n) ∧
      (0 : Int) + incCount (ops.take n) - decCount (ops.take n) < 2 ^ 31 := by
    intro n hn
    have h1 := hpre n hn
    have h2 := hbound n hn
    constructor <;> push_cast <;> omega
  have hrun := runOps_tracks_counts ops 0 hinv
  constructor
  · have h := hrun ops.length le_rfl
    rw [List.take_length] at h
    rw [h]
    ring
  · intro n
    by_cases hn : n ≤ ops.length
    · rw [hrun n hn]
      have := hpre n hn
      omega
    · have hlen : ops.length ≤ n := le_of_lt (Nat.lt_of_not_le hn)
      rw [List.take_of_length_le hlen]
      have h := hrun ops.length le_rfl
      rw [List.take_length] at h
      rw [h]
      have := hpre ops.length le_rfl
      rw [List.take_length] at this
      omega

/-- C4 witness: two registrations followed by one deregistration leave
the count at 1, and the two-step prefix stays nonnegative. -/
theorem counter_k_minus_j_witness :
    runOps 0 [CounterOp.inc, CounterOp.inc, CounterOp.dec] = 1 ∧
    0 ≤ runOps 0 ([CounterOp.inc, CounterOp.inc, CounterOp.dec].take 2) := by
  have h := counter_k_minus_j [CounterOp.inc, CounterOp.inc, CounterOp.dec]
    (by decide) (by decide)
  refine ⟨?_, h.2 2⟩
  rw [h.1]
  norm_num [incCount, decCount]

end ChatServer
